import Mathlib

/-!
# Verification of the sonos-challenge streaming subsystem

Shallow embedding of the audio-streaming server/client code
(`src/audio/message.rs`, `src/network/tcp.rs`, `src/server/main.rs`,
`src/audio/output.rs`) together with proofs about the binary message codec,
the broadcast server, the playback pacer and the speaker callback.

Machine integers are modelled as `Nat` (bytes are `Nat` values `< 256`,
`u16`/`u32` fields carry explicit range bounds) and `i16` samples as `Int`
in `[-32768, 32768)`.  Fallible operations return `Except`.
-/

namespace SonosChallenge

/-! ## Little-endian byte helpers (`u16/u32/i16::to_le_bytes`, `from_le_bytes`) -/

/-- `u16::to_le_bytes`: two little-endian bytes of a 16-bit value. -/
def u16ToLeBytes (n : Nat) : List Nat :=
  [n % 256, n / 256 % 256]

/-- `u16::from_le_bytes` on two bytes. -/
def u16FromLeBytes (a b : Nat) : Nat :=
  a + 256 * b

/-- `u32::to_le_bytes`: four little-endian bytes of a 32-bit value. -/
def u32ToLeBytes (n : Nat) : List Nat :=
  [n % 256, n / 256 % 256, n / 65536 % 256, n / 16777216 % 256]

/-- `u32::from_le_bytes` on four bytes. -/
def u32FromLeBytes (a b c d : Nat) : Nat :=
  a + 256 * b + 65536 * c + 16777216 * d

/-- `i16::to_le_bytes`: the two little-endian bytes of the two's-complement
representation of a sample. -/
def i16ToLeBytes (s : Int) : List Nat :=
  u16ToLeBytes ((s % 65536).toNat)

/-- `i16::from_le_bytes` on two bytes (two's-complement). -/
def i16FromLeBytes (a b : Nat) : Int :=
  let u := a + 256 * b
  if u < 32768 then (u : Int) else (u : Int) - 65536

/-! ## Data model (`src/audio/message.rs`) -/

/-- `hound::SampleFormat`. -/
inductive SampleFormat where
  | Float
  | Int
deriving DecidableEq, Repr

/-- `hound::WavSpec`: channel count (u16), sample rate (u32), bits per
sample (u16), sample format tag. -/
structure WavSpec where
  channels : Nat
  sample_rate : Nat
  bits_per_sample : Nat
  sample_format : SampleFormat
deriving DecidableEq, Repr

/-- `LengthError` (message.rs lines 5-8). -/
inductive LengthError where
  | TooLong (len : Nat)
deriving DecidableEq, Repr

/-- `DeserializationError` (message.rs lines 10-20).  Field order of
`DataLengthMismatch` follows the Rust declaration: expected, then current. -/
inductive DeserializationError where
  | IncorrectAudioMessageType (kind : Nat)
  | DataLengthMismatch (expected_length current_length : Nat)
  | UnknownWaveSpecSampleFormat
deriving DecidableEq, Repr

/-- `AudioMessage` (message.rs lines 26-30). -/
inductive AudioMessage where
  | Spec (spec : WavSpec)
  | Samples (samples : List Int)
deriving DecidableEq, Repr

/-- `AudioMessage::serialize` (message.rs lines 55-93): appends the wire
encoding of the message to `buf`.  A `Samples` message whose count exceeds
`u32::MAX / 2 = 2147483647` is rejected with `TooLong` before any byte is
written. -/
def AudioMessage.serialize (m : AudioMessage) (buf : List Nat) :
    Except LengthError (List Nat) :=
  match m with
  | .Spec spec =>
      .ok (buf ++ [1] ++ u16ToLeBytes spec.channels
        ++ u32ToLeBytes spec.sample_rate
        ++ u16ToLeBytes spec.bits_per_sample
        ++ [match spec.sample_format with | .Float => 1 | .Int => 2])
  | .Samples samples =>
      if samples.length > 2147483647 then
        .error (.TooLong samples.length)
      else
        .ok (buf ++ [2] ++ u32ToLeBytes samples.length
          ++ samples.flatMap i16ToLeBytes)

/-- `bytes[5..].chunks_exact(2).map(i16::from_le_bytes)` (message.rs lines
146-149): decode consecutive byte pairs into samples; a trailing odd byte
is discarded, as `chunks_exact` does. -/
def decodeSamples : List Nat → List Int
  | a :: b :: rest => i16FromLeBytes a b :: decodeSamples rest
  | _ => []

/-- `AudioMessage::deserialize` (message.rs lines 95-155). -/
def AudioMessage.deserialize (bytes : List Nat) :
    Except DeserializationError AudioMessage :=
  match bytes with
  | [] => .error (.DataLengthMismatch 1 0)
  | b0 :: rest =>
    if b0 = 1 then
      match rest with
      | [c0, c1, r0, r1, r2, r3, p0, p1, f] =>
          if f = 1 then
            .ok (.Spec ⟨u16FromLeBytes c0 c1, u32FromLeBytes r0 r1 r2 r3,
              u16FromLeBytes p0 p1, .Float⟩)
          else if f = 2 then
            .ok (.Spec ⟨u16FromLeBytes c0 c1, u32FromLeBytes r0 r1 r2 r3,
              u16FromLeBytes p0 p1, .Int⟩)
          else .error .UnknownWaveSpecSampleFormat
      | _ => .error (.DataLengthMismatch 10 bytes.length)
    else if b0 = 2 then
      match rest with
      | l0 :: l1 :: l2 :: l3 :: tail =>
          if bytes.length = 5 + u32FromLeBytes l0 l1 l2 l3 * 2 then
            .ok (.Samples (decodeSamples tail))
          else
            .error (.DataLengthMismatch (5 + u32FromLeBytes l0 l1 l2 l3 * 2)
              bytes.length)
      | _ => .error (.DataLengthMismatch 5 bytes.length)
    else .error (.IncorrectAudioMessageType b0)

/-- Serialization into an empty buffer. -/
def encode (m : AudioMessage) : Except LengthError (List Nat) :=
  m.serialize []

/-! ## Well-formedness of messages -/

/-- A well-formed spec: each field fits its machine-integer type. -/
def WavSpec.WF (s : WavSpec) : Prop :=
  s.channels < 65536 ∧ s.sample_rate < 4294967296 ∧ s.bits_per_sample < 65536

/-- A well-formed `i16` sample. -/
def i16WF (s : Int) : Prop :=
  -32768 ≤ s ∧ s < 32768

/-- A well-formed audio message: spec fields in range, or samples in `i16`
range with count at most `2^31 - 1`. -/
def AudioMessage.WF : AudioMessage → Prop
  | .Spec s => s.WF
  | .Samples l => (∀ x ∈ l, i16WF x) ∧ l.length ≤ 2147483647

instance {ε α : Type} [DecidableEq ε] [DecidableEq α] : DecidableEq (Except ε α)
  | .error e, .error f =>
      if h : e = f then .isTrue (h ▸ rfl)
      else .isFalse (fun hh => h (Except.error.inj hh))
  | .error _, .ok _ => .isFalse (fun hh => Except.noConfusion hh)
  | .ok _, .error _ => .isFalse (fun hh => Except.noConfusion hh)
  | .ok x, .ok y =>
      if h : x = y then .isTrue (h ▸ rfl)
      else .isFalse (fun hh => h (Except.ok.inj hh))

/-! ## Round-trip lemmas for the byte helpers -/

theorem u16FromLeBytes_u16ToLeBytes (n : Nat) (h : n < 65536) :
    u16FromLeBytes (n % 256) (n / 256 % 256) = n := by
  simp only [u16FromLeBytes]
  omega

theorem u32FromLeBytes_u32ToLeBytes (n : Nat) (h : n < 4294967296) :
    u32FromLeBytes (n % 256) (n / 256 % 256) (n / 65536 % 256)
      (n / 16777216 % 256) = n := by
  simp only [u32FromLeBytes]
  omega

theorem u16ToLeBytes_u16FromLeBytes (a b : Nat) (ha : a < 256) (hb : b < 256) :
    u16ToLeBytes (u16FromLeBytes a b) = [a, b] := by
  simp only [u16ToLeBytes, u16FromLeBytes, List.cons.injEq, and_true]
  exact ⟨by omega, by omega⟩

theorem u32ToLeBytes_u32FromLeBytes (a b c d : Nat)
    (ha : a < 256) (hb : b < 256) (hc : c < 256) (hd : d < 256) :
    u32ToLeBytes (u32FromLeBytes a b c d) = [a, b, c, d] := by
  simp only [u32ToLeBytes, u32FromLeBytes, List.cons.injEq, and_true]
  refine ⟨by omega, by omega, by omega, by omega⟩

theorem i16FromLeBytes_i16ToLeBytes (s : Int) (h : i16WF s) :
    i16FromLeBytes ((s % 65536).toNat % 256) ((s % 65536).toNat / 256 % 256)
      = s := by
  obtain ⟨h1, h2⟩ := h
  simp only [i16FromLeBytes]
  omega

theorem i16ToLeBytes_i16FromLeBytes (a b : Nat) (ha : a < 256) (hb : b < 256) :
    i16ToLeBytes (i16FromLeBytes a b) = [a, b] := by
  simp only [i16ToLeBytes, i16FromLeBytes, u16ToLeBytes, List.cons.injEq,
    and_true]
  by_cases h : a + 256 * b < 32768
  · rw [if_pos h]
    exact ⟨by omega, by omega⟩
  · rw [if_neg h]
    exact ⟨by omega, by omega⟩

theorem length_flatMap_i16ToLeBytes (l : List Int) :
    (l.flatMap i16ToLeBytes).length = 2 * l.length := by
  induction l with
  | nil => rfl
  | cons x rest ih =>
      simp only [List.flatMap_cons, List.length_append, ih, i16ToLeBytes,
        u16ToLeBytes, List.length_cons, List.length_nil]
      omega

theorem decodeSamples_flatMap (l : List Int) (h : ∀ x ∈ l, i16WF x) :
    decodeSamples (l.flatMap i16ToLeBytes) = l := by
  induction l with
  | nil => rfl
  | cons x rest ih =>
      have hx : i16WF x := h x (List.mem_cons_self x rest)
      have hrest : ∀ y ∈ rest, i16WF y := fun y hy => h y (List.mem_cons_of_mem x hy)
      have hhead : i16ToLeBytes x
          = [(x % 65536).toNat % 256, (x % 65536).toNat / 256 % 256] := rfl
      rw [List.flatMap_cons, hhead, List.cons_append, List.cons_append,
        List.nil_append, decodeSamples, ih hrest,
        i16FromLeBytes_i16ToLeBytes x hx]

/-! ## C2 — encode/decode round trip for well-formed messages -/

/-- C2: for every well-formed `Spec` message (any channels, sample rate,
bits per sample, and format tag) and every `Samples` batch of length at
most `2^31 - 1` of in-range samples, serializing into an empty buffer
succeeds and deserializing the resulting bytes returns the original
message. -/
theorem deserialize_serialize_roundtrip (m : AudioMessage) (h : m.WF) :
    ∃ bytes, AudioMessage.serialize m [] = .ok bytes ∧
      AudioMessage.deserialize bytes = .ok m := by
  cases m with
  | Spec s =>
      obtain ⟨c, r, b, fmt⟩ := s
      obtain ⟨hc, hr, hb⟩ := h
      refine ⟨_, rfl, ?_⟩
      cases fmt with
      | Float =>
          simp only [AudioMessage.serialize, u16ToLeBytes, u32ToLeBytes,
            List.cons_append, List.nil_append, AudioMessage.deserialize,
            reduceIte, u16FromLeBytes_u16ToLeBytes c hc,
            u32FromLeBytes_u32ToLeBytes r hr, u16FromLeBytes_u16ToLeBytes b hb]
      | Int =>
          simp only [AudioMessage.serialize, u16ToLeBytes, u32ToLeBytes,
            List.cons_append, List.nil_append, AudioMessage.deserialize,
            reduceIte, u16FromLeBytes_u16ToLeBytes c hc,
            u32FromLeBytes_u32ToLeBytes r hr, u16FromLeBytes_u16ToLeBytes b hb]
          rw [if_neg (by decide)]
  | Samples l =>
      obtain ⟨hwf, hlen⟩ := h
      have hnot : ¬ l.length > 2147483647 := by omega
      refine ⟨[] ++ [2] ++ u32ToLeBytes l.length ++ l.flatMap i16ToLeBytes,
        ?_, ?_⟩
      · simp only [AudioMessage.serialize, if_neg hnot]
      · have hlt : l.length < 4294967296 := by omega
        simp only [u32ToLeBytes, List.cons_append, List.nil_append,
          AudioMessage.deserialize, reduceIte]
        rw [if_neg (by decide : ¬((2 : Nat) = 1))]
        simp only [u32FromLeBytes_u32ToLeBytes l.length hlt, List.length_cons,
          length_flatMap_i16ToLeBytes, decodeSamples_flatMap l hwf]
        rw [if_pos (by omega)]

/-- Witness for C2 at the spec's scenario message
`Spec{channels=2, sample_rate=48000, bits_per_sample=16, format=Int}`. -/
theorem deserialize_serialize_roundtrip_witness :
    ∃ bytes,
      AudioMessage.serialize (.Spec ⟨2, 48000, 16, .Int⟩) [] = .ok bytes ∧
      AudioMessage.deserialize bytes = .ok (.Spec ⟨2, 48000, 16, .Int⟩) :=
  deserialize_serialize_roundtrip (.Spec ⟨2, 48000, 16, .Int⟩)
    ⟨by decide, by decide, by decide⟩

/-! ## C7 / C8 / C10 — decoder totality, encoder errors, empty input -/

theorem decodeSamples_length : ∀ l : List Nat,
    (decodeSamples l).length = l.length / 2
  | [] => rfl
  | [_] => by simp [decodeSamples]
  | _ :: _ :: rest => by
      simp only [decodeSamples, List.length_cons, decodeSamples_length rest]
      omega

theorem flatMap_decodeSamples : ∀ l : List Nat, (∀ x ∈ l, x < 256) →
    l.length % 2 = 0 → (decodeSamples l).flatMap i16ToLeBytes = l
  | [], _, _ => rfl
  | [_], _, hev => by simp at hev
  | a :: b :: rest, hb, hev => by
      have ha' : a < 256 := hb a (by simp)
      have hb' : b < 256 := hb b (by simp)
      have hrest : ∀ x ∈ rest, x < 256 := fun x hx => hb x (by simp [hx])
      have hev' : rest.length % 2 = 0 := by
        simp only [List.length_cons] at hev
        omega
      simp only [decodeSamples, List.flatMap_cons,
        i16ToLeBytes_i16FromLeBytes a b ha' hb',
        flatMap_decodeSamples rest hrest hev', List.cons_append,
        List.nil_append]

theorem decodeSamples_replicate_zero (k : Nat) :
    decodeSamples (List.replicate (2 * k) 0) = List.replicate k 0 := by
  induction k with
  | zero => rfl
  | succ n ih =>
      have h2 : 2 * (n + 1) = (2 * n) + 1 + 1 := by omega
      rw [h2, List.replicate_succ, List.replicate_succ, decodeSamples, ih,
        List.replicate_succ]
      rfl

/-- Unfolding of the decoder on a `Samples`-tagged frame: the decoder
reduces to the declared-count length check. -/
theorem deserialize_samples_unfold (l0 l1 l2 l3 : Nat) (tail : List Nat) :
    AudioMessage.deserialize (2 :: l0 :: l1 :: l2 :: l3 :: tail)
      = (if (2 :: l0 :: l1 :: l2 :: l3 :: tail).length
            = 5 + u32FromLeBytes l0 l1 l2 l3 * 2 then
          Except.ok (AudioMessage.Samples (decodeSamples tail))
        else
          Except.error (DeserializationError.DataLengthMismatch
            (5 + u32FromLeBytes l0 l1 l2 l3 * 2)
            (2 :: l0 :: l1 :: l2 :: l3 :: tail).length)) := rfl

/-- C7 counterexample: the 4294967301-byte frame consisting of tag `0x02`,
little-endian count `2^31`, and `2^32` zero bytes deserializes successfully
to a batch of `2^31` zero samples, but re-serializing that batch fails with
`TooLong`; so `encode(decode(b)) = b` does not hold for every byte
sequence that decodes without error. -/
theorem deserialize_reencode_fails_on_oversized_frame :
    AudioMessage.deserialize
        (2 :: 0 :: 0 :: 0 :: 128 :: List.replicate 4294967296 0)
      = .ok (.Samples (List.replicate 2147483648 0))
    ∧ AudioMessage.serialize (.Samples (List.replicate 2147483648 0)) []
      = .error (.TooLong 2147483648) := by
  constructor
  · have hrep : (4294967296 : Nat) = 2 * 2147483648 := by norm_num
    rw [deserialize_samples_unfold, if_pos (by
      rw [List.length_cons, List.length_cons, List.length_cons,
        List.length_cons, List.length_cons, List.length_replicate]
      rw [show u32FromLeBytes 0 0 0 128 = 2147483648 from rfl])]
    rw [hrep, decodeSamples_replicate_zero]
  · have hser : AudioMessage.serialize
        (.Samples (List.replicate 2147483648 0)) []
        = (if (List.replicate 2147483648 (0 : Int)).length > 2147483647 then
            Except.error (LengthError.TooLong
              (List.replicate 2147483648 (0 : Int)).length)
          else
            Except.ok ([] ++ [2]
              ++ u32ToLeBytes (List.replicate 2147483648 (0 : Int)).length
              ++ (List.replicate 2147483648 (0 : Int)).flatMap
                  i16ToLeBytes)) := rfl
    rw [hser, if_pos (by rw [List.length_replicate]; norm_num)]
    rw [List.length_replicate]

/-- C7 (amended): for every byte sequence `b` of length at most
`4294967299` (so the decoded sample count is at most `2^31 - 1`), a
successful deserialization round-trips: re-serializing the decoded message
into an empty buffer reproduces `b` exactly. -/
theorem serialize_deserialize_roundtrip (b : List Nat) (m : AudioMessage)
    (hbytes : ∀ x ∈ b, x < 256) (hlen : b.length ≤ 4294967299)
    (hd : AudioMessage.deserialize b = .ok m) :
    AudioMessage.serialize m [] = .ok b := by
  cases b with
  | nil => simp [AudioMessage.deserialize] at hd
  | cons b0 rest =>
    by_cases h1 : b0 = 1
    · subst h1
      rcases rest with _ | ⟨c0, rest⟩
      · simp [AudioMessage.deserialize] at hd
      rcases rest with _ | ⟨c1, rest⟩
      · simp [AudioMessage.deserialize] at hd
      rcases rest with _ | ⟨r0, rest⟩
      · simp [AudioMessage.deserialize] at hd
      rcases rest with _ | ⟨r1, rest⟩
      · simp [AudioMessage.deserialize] at hd
      rcases rest with _ | ⟨r2, rest⟩
      · simp [AudioMessage.deserialize] at hd
      rcases rest with _ | ⟨r3, rest⟩
      · simp [AudioMessage.deserialize] at hd
      rcases rest with _ | ⟨p0, rest⟩
      · simp [AudioMessage.deserialize] at hd
      rcases rest with _ | ⟨p1, rest⟩
      · simp [AudioMessage.deserialize] at hd
      rcases rest with _ | ⟨f, rest⟩
      · simp [AudioMessage.deserialize] at hd
      rcases rest with _ | ⟨x, rest⟩
      swap
      · simp [AudioMessage.deserialize] at hd
      have hc0 : c0 < 256 := hbytes c0 (by simp)
      have hc1 : c1 < 256 := hbytes c1 (by simp)
      have hr0 : r0 < 256 := hbytes r0 (by simp)
      have hr1 : r1 < 256 := hbytes r1 (by simp)
      have hr2 : r2 < 256 := hbytes r2 (by simp)
      have hr3 : r3 < 256 := hbytes r3 (by simp)
      have hp0 : p0 < 256 := hbytes p0 (by simp)
      have hp1 : p1 < 256 := hbytes p1 (by simp)
      have hd' : (if f = 1 then
            Except.ok (AudioMessage.Spec ⟨u16FromLeBytes c0 c1,
              u32FromLeBytes r0 r1 r2 r3, u16FromLeBytes p0 p1, .Float⟩)
          else if f = 2 then
            Except.ok (AudioMessage.Spec ⟨u16FromLeBytes c0 c1,
              u32FromLeBytes r0 r1 r2 r3, u16FromLeBytes p0 p1, .Int⟩)
          else Except.error DeserializationError.UnknownWaveSpecSampleFormat)
          = Except.ok m := hd
      by_cases hf1 : f = 1
      · subst hf1
        rw [if_pos rfl] at hd'
        have hm := (Except.ok.inj hd').symm
        subst hm
        simp only [AudioMessage.serialize,
          u16ToLeBytes_u16FromLeBytes c0 c1 hc0 hc1,
          u32ToLeBytes_u32FromLeBytes r0 r1 r2 r3 hr0 hr1 hr2 hr3,
          u16ToLeBytes_u16FromLeBytes p0 p1 hp0 hp1, List.cons_append,
          List.nil_append]
      by_cases hf2 : f = 2
      · subst hf2
        rw [if_neg hf1, if_pos rfl] at hd'
        have hm := (Except.ok.inj hd').symm
        subst hm
        simp only [AudioMessage.serialize,
          u16ToLeBytes_u16FromLeBytes c0 c1 hc0 hc1,
          u32ToLeBytes_u32FromLeBytes r0 r1 r2 r3 hr0 hr1 hr2 hr3,
          u16ToLeBytes_u16FromLeBytes p0 p1 hp0 hp1, List.cons_append,
          List.nil_append]
      · rw [if_neg hf1, if_neg hf2] at hd'
        cases hd'
    by_cases h2 : b0 = 2
    · subst h2
      rcases rest with _ | ⟨l0, rest⟩
      · simp [AudioMessage.deserialize] at hd
      rcases rest with _ | ⟨l1, rest⟩
      · simp [AudioMessage.deserialize] at hd
      rcases rest with _ | ⟨l2, rest⟩
      · simp [AudioMessage.deserialize] at hd
      rcases rest with _ | ⟨l3, tail⟩
      · simp [AudioMessage.deserialize] at hd
      rw [deserialize_samples_unfold] at hd
      by_cases hc : (2 :: l0 :: l1 :: l2 :: l3 :: tail).length
          = 5 + u32FromLeBytes l0 l1 l2 l3 * 2
      · rw [if_pos hc] at hd
        have hm : m = .Samples (decodeSamples tail) :=
          (Except.ok.inj hd).symm
        subst hm
        have htail : ∀ x ∈ tail, x < 256 := fun x hx =>
          hbytes x (by simp [hx])
        have htl : tail.length = u32FromLeBytes l0 l1 l2 l3 * 2 := by
          simp only [List.length_cons] at hc
          omega
        have hev : tail.length % 2 = 0 := by omega
        have hcount : (decodeSamples tail).length ≤ 2147483647 := by
          rw [decodeSamples_length]
          simp only [List.length_cons, List.length_nil] at hlen ⊢
          omega
        simp only [AudioMessage.serialize,
          if_neg (by omega : ¬ (decodeSamples tail).length > 2147483647),
          flatMap_decodeSamples tail htail hev]
        have hlen32 : (decodeSamples tail).length = u32FromLeBytes l0 l1 l2 l3 := by
          rw [decodeSamples_length]
          omega
        have hl0 : l0 < 256 := hbytes l0 (by simp)
        have hl1 : l1 < 256 := hbytes l1 (by simp)
        have hl2 : l2 < 256 := hbytes l2 (by simp)
        have hl3 : l3 < 256 := hbytes l3 (by simp)
        rw [hlen32, u32ToLeBytes_u32FromLeBytes l0 l1 l2 l3 hl0 hl1 hl2 hl3]
        simp
      · rw [if_neg hc] at hd
        cases hd
    · simp [AudioMessage.deserialize, h1, h2] at hd

/-- Closed witness for the amended C7 theorem at the 5-byte empty
`Samples` frame. -/
theorem serialize_deserialize_roundtrip_witness :
    AudioMessage.serialize (.Samples []) [] = .ok [2, 0, 0, 0, 0] :=
  serialize_deserialize_roundtrip [2, 0, 0, 0, 0] (.Samples [])
    (by decide) (by decide) (by decide)

/-- C8: serialization fails exactly on `Samples` batches whose count
exceeds `u32::MAX / 2 = 2147483647`, in which case the error is
`TooLong` carrying that count; serializing a `Spec` never fails. -/
theorem serialize_error_characterization (m : AudioMessage)
    (buf : List Nat) :
    ((∃ e, AudioMessage.serialize m buf = .error e)
      ↔ ∃ l, m = .Samples l ∧ 2147483647 < l.length)
    ∧ (∀ e, AudioMessage.serialize m buf = .error e
        → ∃ l, m = .Samples l ∧ e = .TooLong l.length) := by
  cases m with
  | Spec s =>
      constructor
      · constructor
        · rintro ⟨e, he⟩
          simp [AudioMessage.serialize] at he
        · rintro ⟨l, hl, _⟩
          cases hl
      · intro e he
        simp [AudioMessage.serialize] at he
  | Samples l =>
      by_cases h : l.length > 2147483647
      · constructor
        · constructor
          · intro _
            exact ⟨l, rfl, h⟩
          · intro _
            exact ⟨.TooLong l.length, by simp [AudioMessage.serialize, h]⟩
        · intro e he
          refine ⟨l, rfl, ?_⟩
          simp only [AudioMessage.serialize, if_pos h,
            Except.error.injEq] at he
          exact he.symm
      · constructor
        · constructor
          · rintro ⟨e, he⟩
            simp [AudioMessage.serialize, h] at he
          · rintro ⟨l', hl', hlen'⟩
            cases hl'
            omega
        · intro e he
          simp [AudioMessage.serialize, h] at he

/-- Closed witness for C8: an oversized batch is rejected. -/
theorem serialize_error_characterization_witness :
    ∃ e, AudioMessage.serialize
      (.Samples (List.replicate 2147483648 0)) [] = .error e :=
  (serialize_error_characterization (.Samples (List.replicate 2147483648 0))
    []).1.mpr ⟨List.replicate 2147483648 0, rfl,
      by simp only [List.length_replicate]; norm_num⟩

/-! ## Broadcast server model (`src/network/tcp.rs`) -/

/-- Error returned by `TcpServer::broadcast` (tcp.rs lines 132-137): the
only failure is `InvalidInput`, raised when the payload length exceeds
`u32::MAX = 4294967295`. -/
inductive BroadcastError where
  | invalidInput
deriving DecidableEq, Repr

/-- `TcpServer::broadcast` (tcp.rs lines 131-165) at the function level.
Peers are identified by `Nat` ids and `writeOk p` models whether the
two `write_all` calls of `send_frame` to peer `p` succeed.  The length
guard runs first; then the deque is drained, the frame write is attempted
on each peer in order, survivors are kept and reinserted; the final peer
set is returned. -/
def broadcastFn (data : List Nat) (writeOk : Nat → Bool)
    (streams : List Nat) : Except BroadcastError (List Nat) :=
  if data.length > 4294967295 then .error .invalidInput
  else .ok (streams.filter writeOk)

/-- C4: `broadcast` returns an error iff the payload exceeds `2^32 - 1`
bytes, and on success the surviving peer set consists of exactly those
drained peers whose frame write succeeded — a peer that failed its write
is removed before `broadcast` returns, and such per-peer failures never
make `broadcast` itself fail. -/
theorem broadcast_error_iff_and_peer_removal (data : List Nat)
    (writeOk : Nat → Bool) (streams : List Nat) :
    ((∃ e, broadcastFn data writeOk streams = .error e)
      ↔ 4294967295 < data.length)
    ∧ (∀ out, broadcastFn data writeOk streams = .ok out
        → ∀ p, p ∈ out ↔ (p ∈ streams ∧ writeOk p = true)) := by
  by_cases h : data.length > 4294967295
  · refine ⟨⟨fun _ => h, fun _ => ⟨.invalidInput, by simp [broadcastFn, h]⟩⟩,
      ?_⟩
    intro out hout
    simp [broadcastFn, h] at hout
  · constructor
    · constructor
      · rintro ⟨e, he⟩
        simp [broadcastFn, h] at he
      · intro hlt
        omega
    · intro out hout p
      simp only [broadcastFn, if_neg h, Except.ok.injEq] at hout
      subst hout
      exact List.mem_filter

/-- Closed witness for C4: broadcasting a small payload to peers
`[1, 2, 3]` where the write to peer 2 fails removes exactly peer 2. -/
theorem broadcast_error_iff_and_peer_removal_witness :
    (2 ∈ ([1, 3] : List Nat))
      ↔ (2 ∈ ([1, 2, 3] : List Nat)
          ∧ (fun p : Nat => decide (p ≠ 2)) 2 = true) :=
  (broadcast_error_iff_and_peer_removal [7] (fun p => decide (p ≠ 2))
    [1, 2, 3]).2 [1, 3] (by decide) 2

/-- Shared state of the accept thread and the broadcast caller
(tcp.rs lines 10-15): the greeting buffer `new_client_message`, the peer
deque `streams`, and — to model the window in which `broadcast` has
drained the deque but not yet reinserted the survivors (lines 142-158) —
the drained peers together with the pending payload.  `recvd` records the
frames fully delivered to each accepted connection, in order. -/
structure TcpState where
  greeting : List Nat
  peers : List Nat
  drained : List Nat
  pending : Option (List Nat)
  recvd : List (Nat × List (List Nat))
deriving DecidableEq, Repr

/-- Interleaved atomic steps of the accept thread and the broadcast
caller.  `accept id ok` is one accept-loop iteration for a fresh
connection `id`, `ok` being the success of the greeting frame write
(tcp.rs lines 60-85); `setGreeting` is `set_new_client_message`
(lines 107-121); `broadcastStart p` drains the deque under the lock
(lines 138-143); `broadcastFinish ok` performs the unlocked per-peer
writes, succeeding exactly for peers with `ok p = true`, and reinserts
the survivors (lines 146-158). -/
inductive TcpAction where
  | setGreeting (g : List Nat)
  | accept (id : Nat) (ok : Bool)
  | broadcastStart (p : List Nat)
  | broadcastFinish (ok : Nat → Bool)

/-- Record delivery of frame `p` to every peer in `ids`. -/
def deliverAll (ids : List Nat) (p : List Nat)
    (recvd : List (Nat × List (List Nat))) :
    List (Nat × List (List Nat)) :=
  recvd.map (fun e => (e.1, if e.1 ∈ ids then e.2 ++ [p] else e.2))

/-- One interleaved step of the server.  Accepting writes the greeting to
the fresh stream (when the greeting is non-empty) before the stream is
pushed onto the deque, so a peer is visible to `broadcastStart` only
after its greeting frame is complete; a failed greeting write drops the
stream without inserting it. -/
def TcpState.step (a : TcpAction) (s : TcpState) : TcpState :=
  match a with
  | .setGreeting g => { s with greeting := g }
  | .accept id ok =>
      if (s.recvd.lookup id).isSome then s
      else if s.greeting.isEmpty then
        { s with peers := id :: s.peers, recvd := (id, []) :: s.recvd }
      else if ok then
        { s with peers := id :: s.peers,
                 recvd := (id, [s.greeting]) :: s.recvd }
      else s
  | .broadcastStart p =>
      match s.pending with
      | some _ => s
      | none => { s with peers := [], drained := s.peers, pending := some p }
  | .broadcastFinish ok =>
      match s.pending with
      | none => s
      | some p =>
          { s with peers := s.peers ++ s.drained.filter ok,
                   drained := [], pending := none,
                   recvd := deliverAll (s.drained.filter ok) p s.recvd }

/-- The server's initial state after `bind`: empty greeting, no peers. -/
def TcpState.init : TcpState := ⟨[], [], [], none, []⟩

/-- Run a sequence of interleaved steps. -/
def runActions (acts : List TcpAction) (s : TcpState) : TcpState :=
  acts.foldl (fun t a => TcpState.step a t) s

/-- The payloads of the broadcasts started in an action sequence. -/
def broadcastPayloads (acts : List TcpAction) : List (List Nat) :=
  acts.filterMap (fun a => match a with
    | .broadcastStart p => some p
    | _ => none)

theorem lookup_deliverAll (ids : List Nat) (p : List Nat) (id : Nat) :
    ∀ recvd : List (Nat × List (List Nat)),
    (deliverAll ids p recvd).lookup id
      = (recvd.lookup id).map (fun fs => if id ∈ ids then fs ++ [p] else fs)
  | [] => rfl
  | (k, v) :: rest => by
      by_cases hk : k = id
      · subst hk
        simp [deliverAll, List.lookup]
      · simpa [deliverAll, List.lookup,
          beq_eq_false_iff_ne.mpr (Ne.symm hk)]
          using lookup_deliverAll ids p id rest

/-- Every peer in the deque or in a drained broadcast batch has been
accepted (has a delivery record). -/
def DomClosed (s : TcpState) : Prop :=
  (∀ i ∈ s.peers, (s.recvd.lookup i).isSome = true)
  ∧ (∀ i ∈ s.drained, (s.recvd.lookup i).isSome = true)

theorem step_domClosed (a : TcpAction) (s : TcpState) (h : DomClosed s) :
    DomClosed (TcpState.step a s) := by
  obtain ⟨hp, hdr⟩ := h
  cases a with
  | setGreeting g => exact ⟨hp, hdr⟩
  | accept id ok =>
      simp only [TcpState.step]
      by_cases hfresh : (s.recvd.lookup id).isSome
      · simp only [hfresh, if_pos]
        exact ⟨hp, hdr⟩
      · have hcons : ∀ fr : List (List Nat), ∀ i,
            i ∈ id :: s.peers ∨ i ∈ s.drained →
            (((id, fr) :: s.recvd).lookup i).isSome = true := by
          intro fr i hi
          by_cases hik : i = id
          · subst hik
            simp [List.lookup]
          · have : (s.recvd.lookup i).isSome = true := by
              rcases hi with hi | hi
              · rcases List.mem_cons.mp hi with rfl | hi
                · exact absurd rfl hik
                · exact hp i hi
              · exact hdr i hi
            simpa [List.lookup, beq_eq_false_iff_ne.mpr hik]

        rw [if_neg hfresh]
        by_cases hg : s.greeting.isEmpty
        · rw [if_pos hg]
          exact ⟨fun i hi => hcons [] i (Or.inl hi),
            fun i hi => hcons [] i (Or.inr hi)⟩
        · rw [if_neg hg]
          cases ok with
          | true =>
              rw [if_pos rfl]
              exact ⟨fun i hi => hcons [s.greeting] i (Or.inl hi),
                fun i hi => hcons [s.greeting] i (Or.inr hi)⟩
          | false =>
              rw [if_neg (by simp)]
              exact ⟨hp, hdr⟩
  | broadcastStart p =>
      simp only [TcpState.step]
      cases hpend : s.pending with
      | some q => exact ⟨hp, hdr⟩
      | none =>
          refine ⟨fun i hi => absurd hi (List.not_mem_nil i), fun i hi => hp i hi⟩
  | broadcastFinish ok =>
      simp only [TcpState.step]
      cases hpend : s.pending with
      | none => exact ⟨hp, hdr⟩
      | some q =>
          constructor
          · intro i hi
            rw [lookup_deliverAll, Option.isSome_map']
            rcases List.mem_append.mp hi with hi | hi
            · exact hp i hi
            · exact hdr i (List.mem_filter.mp hi).1
          · intro i hi
            exact absurd hi (List.not_mem_nil i)

theorem run_domClosed (acts : List TcpAction) :
    ∀ s : TcpState, DomClosed s → DomClosed (runActions acts s) := by
  induction acts with
  | nil => exact fun s h => h
  | cons a rest ih =>
      intro s h
      exact ih (TcpState.step a s) (step_domClosed a s h)

theorem init_domClosed : DomClosed TcpState.init :=
  ⟨fun i hi => absurd hi (List.not_mem_nil i),
    fun i hi => absurd hi (List.not_mem_nil i)⟩

/-- Invariant carried from the moment a peer `id` was accepted with
greeting `g`: its delivery record starts with the greeting frame, every
later frame is the payload of some broadcast in `B`, and if the peer is
currently in a drained batch the pending payload is also in `B`. -/
def GreetedInv (id : Nat) (g : List Nat) (B : List (List Nat))
    (s : TcpState) : Prop :=
  (∃ rest, s.recvd.lookup id = some (g :: rest) ∧ ∀ p ∈ rest, p ∈ B)
  ∧ (id ∈ s.drained → ∃ q, s.pending = some q ∧ q ∈ B)

theorem step_greetedInv (id : Nat) (g : List Nat) (B : List (List Nat))
    (a : TcpAction) (s : TcpState) (hinv : GreetedInv id g B s)
    (hB : ∀ p, a = .broadcastStart p → p ∈ B) :
    GreetedInv id g B (TcpState.step a s) := by
  obtain ⟨⟨rest, hlook, hrest⟩, hdr⟩ := hinv
  cases a with
  | setGreeting g' => exact ⟨⟨rest, hlook, hrest⟩, hdr⟩
  | accept id' ok =>
      simp only [TcpState.step]
      by_cases hfresh : (s.recvd.lookup id').isSome
      · simp only [hfresh, if_pos]
        exact ⟨⟨rest, hlook, hrest⟩, hdr⟩
      · have hne : id' ≠ id := by
          intro hcontra
          subst hcontra
          rw [hlook] at hfresh
          simp at hfresh
        have hlook' : ∀ fr : List (List Nat),
            (((id', fr) :: s.recvd).lookup id) = some (g :: rest) := by
          intro fr
          simpa [List.lookup, beq_eq_false_iff_ne.mpr (Ne.symm hne)]
            using hlook
        rw [if_neg hfresh]
        by_cases hg : s.greeting.isEmpty
        · rw [if_pos hg]
          exact ⟨⟨rest, hlook' [], hrest⟩, hdr⟩
        · rw [if_neg hg]
          cases ok with
          | true =>
              rw [if_pos rfl]
              exact ⟨⟨rest, hlook' [s.greeting], hrest⟩, hdr⟩
          | false =>
              rw [if_neg (by simp)]
              exact ⟨⟨rest, hlook, hrest⟩, hdr⟩
  | broadcastStart p =>
      simp only [TcpState.step]
      cases hpend : s.pending with
      | some q => exact ⟨⟨rest, hlook, hrest⟩, hdr⟩
      | none =>
          refine ⟨⟨rest, hlook, hrest⟩, fun _ => ⟨p, rfl, hB p rfl⟩⟩
  | broadcastFinish ok =>
      simp only [TcpState.step]
      cases hpend : s.pending with
      | none => exact ⟨⟨rest, hlook, hrest⟩, hdr⟩
      | some q =>
          constructor
          · by_cases hid : id ∈ s.drained.filter ok
            · have hqB : q ∈ B := by
                obtain ⟨q', hq', hq'B⟩ := hdr (List.mem_filter.mp hid).1
                rw [hpend] at hq'
                cases hq'
                exact hq'B
              refine ⟨rest ++ [q], ?_, ?_⟩
              · rw [lookup_deliverAll, hlook]
                simp [hid]
              · intro p hp
                rcases List.mem_append.mp hp with hp | hp
                · exact hrest p hp
                · rcases List.mem_singleton.mp hp with rfl
                  exact hqB
            · refine ⟨rest, ?_, hrest⟩
              rw [lookup_deliverAll, hlook]
              simp [hid]
          · intro hid
            exact absurd hid (List.not_mem_nil id)

theorem run_greetedInv (id : Nat) (g : List Nat) (B : List (List Nat)) :
    ∀ (acts : List TcpAction) (s : TcpState), GreetedInv id g B s →
    (∀ p ∈ broadcastPayloads acts, p ∈ B) →
    GreetedInv id g B (runActions acts s)
  | [], s, hinv, _ => hinv
  | a :: rest, s, hinv, hBs => by
      have hstep : GreetedInv id g B (TcpState.step a s) :=
        step_greetedInv id g B a s hinv (by
          intro p hp
          subst hp
          exact hBs p (by simp [broadcastPayloads]))
      exact run_greetedInv id g B rest (TcpState.step a s) hstep
        (fun p hp => hBs p (by
          cases a <;> simp [broadcastPayloads] at hp ⊢ <;> simp [hp]))

/-- C3 (amended): in every reachable interleaving, a peer accepted while
the greeting slot holds a non-empty payload `g` (and whose greeting write
succeeds) first receives exactly the frame `g`, and every frame it
receives afterwards is the payload of a broadcast started after its
acceptance: the accept thread writes the greeting before inserting the
peer, and broadcasts deliver only to peers drained from the set. -/
theorem greeting_precedes_broadcast_frames (pre post : List TcpAction)
    (id : Nat) (g : List Nat)
    (hg : (runActions pre TcpState.init).greeting = g)
    (hne : g ≠ [])
    (hfresh : ((runActions pre TcpState.init).recvd.lookup id) = none) :
    ∃ rest,
      ((runActions post (TcpState.step (.accept id true)
          (runActions pre TcpState.init))).recvd.lookup id)
        = some (g :: rest)
      ∧ ∀ p ∈ rest, p ∈ broadcastPayloads post := by
  have hdom : DomClosed (runActions pre TcpState.init) :=
    run_domClosed pre TcpState.init init_domClosed
  have hstep : TcpState.step (.accept id true) (runActions pre TcpState.init)
      = { runActions pre TcpState.init with
            peers := id :: (runActions pre TcpState.init).peers,
            recvd := (id, [g]) :: (runActions pre TcpState.init).recvd } := by
    simp only [TcpState.step, hfresh, Option.isSome_none, Bool.false_eq_true,
      if_false, hg]
    rw [if_neg (by simpa [List.isEmpty_iff] using hne), if_pos trivial]
  have hinv2 : GreetedInv id g (broadcastPayloads post)
      (TcpState.step (.accept id true) (runActions pre TcpState.init)) := by
    rw [hstep]
    constructor
    · exact ⟨[], by simp [List.lookup], by simp⟩
    · intro hid
      have := hdom.2 id hid
      rw [hfresh] at this
      simp at this
  have hfinal := run_greetedInv id g (broadcastPayloads post) post _
    hinv2 (fun p hp => hp)
  exact hfinal.1

/-- Closed witness for C3 (amended): greeting `[3]` set, one peer
accepted, one broadcast of `[9]` started and finished afterwards. -/
theorem greeting_precedes_broadcast_frames_witness :
    ∃ rest,
      ((runActions
          [TcpAction.broadcastStart [9], TcpAction.broadcastFinish
            (fun _ => true)]
          (TcpState.step (.accept 0 true)
            (runActions [TcpAction.setGreeting [3]]
              TcpState.init))).recvd.lookup 0)
        = some ([3] :: rest)
      ∧ ∀ p ∈ rest, p ∈ broadcastPayloads
          [TcpAction.broadcastStart [9], TcpAction.broadcastFinish
            (fun _ => true)] :=
  greeting_precedes_broadcast_frames [TcpAction.setGreeting [3]]
    [TcpAction.broadcastStart [9], TcpAction.broadcastFinish
      (fun _ => true)]
    0 [3] rfl (by decide) rfl

/-- C3 counterexample: after `set_greeting([])` the accept thread skips
the greeting write (`tcp.rs` line 73 sends only when the buffer is
non-empty), so a peer connecting afterwards receives the next broadcast
frame `[9]` as its first frame and never receives a frame with payload
`[]`; the claim's guarantee fails for the empty greeting payload. -/
theorem empty_greeting_not_replayed :
    ((runActions
        [TcpAction.broadcastStart [9], TcpAction.broadcastFinish
          (fun _ => true)]
        (TcpState.step (.accept 0 true)
          (runActions [TcpAction.setGreeting []]
            TcpState.init))).recvd.lookup 0)
      = some [[9]]
    ∧ decide (([] : List Nat) ∈ [[9]]) = false := by
  constructor
  · rfl
  · rfl

/-! ## Playback pacer (`src/server/main.rs`, `Application::play_wav_file`) -/

/-- Observable events of `play_wav_file`.  Sleep durations are not
modelled (the `wait_time` computation is floating-point); only the fact
that a sleep happens is recorded.  `drainWait` would be a poll of the
peer count after the stream ends; it is part of the event vocabulary so
that its absence from every trace can be stated. -/
inductive PacerEvent where
  | setGreeting
  | waitForClients
  | broadcast (m : AudioMessage)
  | sleepPause
  | drainWait
  | serializeFail
deriving DecidableEq, Repr

/-- The sample loop of `play_wav_file` (main.rs lines 81-125) for a
source whose iterator yields every sample without error.  State: the
current `sample_group`, the `sent_samples` counter. When the group has
reached `SAMPLES_PER_GROUP = 1000` the group is serialized and broadcast,
the group is cleared — the triggering sample `s` is not pushed — and
`sent_samples` is increased by the length of the just-cleared group
(main.rs line 101 runs after line 96's `clear`); a sleep follows when
`sent_samples` exceeds `sample_rate * 3`.  After the iterator ends, a
non-empty partial group is serialized and broadcast (lines 113-125). -/
def pacerLoop (rate3 : Nat) : List Int → List Int → Nat → List PacerEvent
  | [], group, _sent =>
      if group.isEmpty then []
      else
        match AudioMessage.serialize (.Samples group) [] with
        | .error _ => [.serializeFail]
        | .ok _ => [.broadcast (.Samples group)]
  | s :: rest, group, sent =>
      if group.length < 1000 then
        pacerLoop rate3 rest (group ++ [s]) sent
      else
        match AudioMessage.serialize (.Samples group) [] with
        | .error _ => [.serializeFail]
        | .ok _ =>
            let cleared : List Int := []
            let sent' := sent + cleared.length
            .broadcast (.Samples group)
              :: (if sent' > rate3 then [PacerEvent.sleepPause] else [])
              ++ pacerLoop rate3 rest cleared sent'

/-- The full event trace of `play_wav_file` (main.rs lines 43-126):
serialize the spec, set it as the greeting, poll until a client connects,
broadcast the spec, then run the sample loop with `sent_samples = 0`.
The function returns right after the final flush — there is no
peer-count drain phase. -/
def playWavTrace (spec : WavSpec) (samples : List Int) : List PacerEvent :=
  match AudioMessage.serialize (.Spec spec) [] with
  | .error _ => [.serializeFail]
  | .ok _ =>
      .setGreeting :: .waitForClients :: .broadcast (.Spec spec)
        :: pacerLoop (spec.sample_rate * 3) samples [] 0

/-- The sample batches serialized and broadcast in a trace, in order. -/
def sampleBatches (t : List PacerEvent) : List (List Int) :=
  t.filterMap (fun e => match e with
    | .broadcast (.Samples g) => some g
    | _ => none)

def PacerEvent.isSleepPause : PacerEvent → Bool
  | .sleepPause => true
  | _ => false

def PacerEvent.isDrainWait : PacerEvent → Bool
  | .drainWait => true
  | _ => false

theorem pacerLoop_no_sleep (rate3 : Nat) :
    ∀ (samples group : List Int),
    (pacerLoop rate3 samples group 0).filter PacerEvent.isSleepPause = []
  | [], group => by
      rw [pacerLoop]
      by_cases hg : group.isEmpty
      · rw [if_pos hg]
        rfl
      · rw [if_neg hg]
        cases AudioMessage.serialize (.Samples group) [] <;> rfl
  | s :: rest, group => by
      rw [pacerLoop]
      by_cases hlen : group.length < 1000
      · rw [if_pos hlen]
        exact pacerLoop_no_sleep rate3 rest (group ++ [s])
      · rw [if_neg hlen]
        cases hser : AudioMessage.serialize (.Samples group) [] with
        | error e => rfl
        | ok bs =>
            show List.filter PacerEvent.isSleepPause
              ((PacerEvent.broadcast (AudioMessage.Samples group)
                :: (if 0 + ([] : List Int).length > rate3 then
                    [PacerEvent.sleepPause] else []))
                ++ pacerLoop rate3 rest [] (0 + ([] : List Int).length)) = []
            rw [if_neg (by simp)]
            exact pacerLoop_no_sleep rate3 rest []

theorem pacerLoop_no_drain (rate3 : Nat) :
    ∀ (samples group : List Int) (sent : Nat),
    (pacerLoop rate3 samples group sent).filter PacerEvent.isDrainWait = []
  | [], group, sent => by
      rw [pacerLoop]
      by_cases hg : group.isEmpty
      · rw [if_pos hg]
        rfl
      · rw [if_neg hg]
        cases AudioMessage.serialize (.Samples group) [] <;> rfl
  | s :: rest, group, sent => by
      rw [pacerLoop]
      by_cases hlen : group.length < 1000
      · rw [if_pos hlen]
        exact pacerLoop_no_drain rate3 rest (group ++ [s]) sent
      · rw [if_neg hlen]
        cases hser : AudioMessage.serialize (.Samples group) [] with
        | error e => rfl
        | ok bs =>
            show List.filter PacerEvent.isDrainWait
              ((PacerEvent.broadcast (AudioMessage.Samples group)
                :: (if sent + ([] : List Int).length > rate3 then
                    [PacerEvent.sleepPause] else []))
                ++ pacerLoop rate3 rest []
                  (sent + ([] : List Int).length)) = []
            by_cases hs : sent + ([] : List Int).length > rate3
            · rw [if_pos hs]
              exact pacerLoop_no_drain rate3 rest []
                (sent + ([] : List Int).length)
            · rw [if_neg hs]
              exact pacerLoop_no_drain rate3 rest []
                (sent + ([] : List Int).length)

/-- C5: the pacer never sleeps, for any spec and any error-free source.
`sent_samples += sample_group.len()` (main.rs line 101) executes after
`sample_group.clear()` (line 96), so the counter stays 0 forever and the
warm-up threslold `sample_rate * 3` is never exceeded. -/
theorem pacer_never_sleeps (spec : WavSpec) (samples : List Int) :
    (playWavTrace spec samples).filter PacerEvent.isSleepPause = [] := by
  rw [playWavTrace]
  cases AudioMessage.serialize (.Spec spec) []
  · rfl
  · simpa [List.filter, PacerEvent.isSleepPause]
      using pacerLoop_no_sleep (spec.sample_rate * 3) samples []

/-- C9 (amended): `play_wav_file` returns immediately after broadcasting
the final partial group; its trace never contains a drain-wait poll of
the peer count, for any spec and any error-free source. -/
theorem pacer_has_no_drain_phase (spec : WavSpec) (samples : List Int) :
    (playWavTrace spec samples).filter PacerEvent.isDrainWait = [] := by
  rw [playWavTrace]
  cases AudioMessage.serialize (.Spec spec) []
  · rfl
  · simpa [List.filter, PacerEvent.isDrainWait]
      using pacerLoop_no_drain (spec.sample_rate * 3) samples [] 0

/-- C9 counterexample: for a 3-sample source the trace ends with the
final flush broadcast — no block-wait on the peer count follows it. -/
theorem pacer_returns_without_drain :
    playWavTrace ⟨1, 8000, 16, .Int⟩ [1, 2, 3]
      = [.setGreeting, .waitForClients,
         .broadcast (.Spec ⟨1, 8000, 16, .Int⟩),
         .broadcast (.Samples [1, 2, 3])]
    ∧ (playWavTrace ⟨1, 8000, 16, .Int⟩ [1, 2, 3]).filter
        PacerEvent.isDrainWait = [] := by
  constructor
  · rfl
  · rfl

set_option maxRecDepth 100000 in
/-- C1: evaluation at a 1001-sample source (1000 zeros then the sample
`7`).  The sample that arrives while the group is full triggers the
flush but is itself neither added to the flushed group nor retained
(main.rs lines 86-96 push only when `len < SAMPLES_PER_GROUP` and the
flush path never pushes `s`), so the broadcast batches concatenate to
the first 1000 samples only and the sample `7` is lost. -/
theorem pacer_drops_group_boundary_sample :
    (sampleBatches (playWavTrace ⟨1, 8000, 16, .Int⟩
        (List.replicate 1000 0 ++ [7]))).flatten
      = List.replicate 1000 (0 : Int)
    ∧ decide (List.replicate 1000 (0 : Int)
        = List.replicate 1000 (0 : Int) ++ [7]) = false := by
  constructor
  · decide
  · decide

/-! ## Speaker callback (`src/audio/output.rs`, `fill_from_consumer`) -/

/-- `fill_from_consumer` (output.rs lines 219-229) at the sample level:
the ring buffer is the list of queued `i16` samples, the output buffer
has `n` slots.  The loop iterates `out.chunks_mut(2)` — chunks of two
slots regardless of the stream config's channel count — popping one
sample per chunk (`try_pop().unwrap_or(EQUILIBRIUM)`, equilibrium 0 for
`i16`) and writing it into every slot of the chunk; a trailing chunk of
one slot gets its own pop.  Returns the written samples (before native
format conversion) and the remaining ring contents. -/
def fillFromConsumer : List Int → Nat → List Int × List Int
  | ring, 0 => ([], ring)
  | [], 1 => ([0], [])
  | x :: r, 1 => ([x], r)
  | [], n + 2 =>
      let out := fillFromConsumer [] n
      (0 :: 0 :: out.1, out.2)
  | x :: r, n + 2 =>
      let out := fillFromConsumer r n
      (x :: x :: out.1, out.2)

/-- Modelled from the spec: the claimed callback contract — "for each
output frame of size C (channels), pop one sample from the ring buffer
and write it into every channel slot; substitute silence when empty" —
instantiated at a device configured with 1 channel, where each frame is
a single slot: the output is the first `n` queued samples padded with
zeros, and the first `n` samples are consumed. -/
def claimedCallbackFillMono (ring : List Int) (n : Nat) :
    List Int × List Int :=
  (ring.take n ++ List.replicate (n - ring.length) 0, ring.drop n)

/-- C6 counterexample: on a device with 1 channel and a ring holding
`[5, 7]`, a 2-slot output buffer should per the claim carry the two
queued samples `[5, 7]` (one pop per 1-slot frame); the code instead
treats the buffer as one chunk of 2 slots, pops once, and writes
`[5, 5]`, leaving `7` queued. -/
theorem callback_ignores_channel_count :
    fillFromConsumer [5, 7] 2 = ([5, 5], [7])
    ∧ claimedCallbackFillMono [5, 7] 2 = ([5, 7], [])
    ∧ decide (fillFromConsumer [5, 7] 2
        = claimedCallbackFillMono [5, 7] 2) = false := by
  refine ⟨rfl, rfl, rfl⟩

theorem fillFromConsumer_even (k : Nat) : ∀ ring : List Int,
    fillFromConsumer ring (2 * k)
      = ((ring.take k ++ List.replicate (k - ring.length) 0).flatMap
          (fun s => [s, s]), ring.drop k) := by
  induction k with
  | zero => intro ring; simp [fillFromConsumer]
  | succ m ih =>
      intro ring
      rw [Nat.mul_succ]
      cases ring with
      | nil =>
          show fillFromConsumer [] (2 * m + 2) = _
          rw [fillFromConsumer, ih]
          simp [List.replicate_succ]
      | cons x r =>
          show fillFromConsumer (x :: r) (2 * m + 2) = _
          rw [fillFromConsumer, ih]
          simp [List.take_succ_cons, List.drop_succ_cons]

theorem fillFromConsumer_odd (k : Nat) : ∀ ring : List Int,
    fillFromConsumer ring (2 * k + 1)
      = ((ring.take k ++ List.replicate (k - ring.length) 0).flatMap
            (fun s => [s, s]) ++ [(ring.drop k).headD 0],
         ring.drop (k + 1)) := by
  induction k with
  | zero =>
      intro ring
      cases ring <;> simp [fillFromConsumer]
  | succ m ih =>
      intro ring
      have hn : 2 * (m + 1) + 1 = (2 * m + 1) + 2 := by omega
      rw [hn]
      cases ring with
      | nil =>
          show fillFromConsumer [] ((2 * m + 1) + 2) = _
          rw [fillFromConsumer, ih]
          simp [List.replicate_succ]
      | cons x r =>
          show fillFromConsumer (x :: r) ((2 * m + 1) + 2) = _
          rw [fillFromConsumer, ih]
          simp [List.take_succ_cons, List.drop_succ_cons]

/-- C6 (amended): the callback fills every output buffer in chunks of
two slots regardless of the device's channel count (every buffer length
is `2k` or `2k + 1`).  For a buffer of `2k` slots it pops
`min k (ring length)` samples, duplicates each popped sample into both
slots of its chunk, pads remaining chunks with the equilibrium value 0
once the ring runs empty, and leaves the rest of the ring queued; for a
buffer of `2k + 1` slots the final chunk has a single slot, which
receives one popped sample of its own (the `(k+1)`-st queued sample, or
0 when fewer are queued). -/
theorem callback_fills_in_stereo_chunks (ring : List Int) (k : Nat) :
    (fillFromConsumer ring (2 * k)
      = ((ring.take k ++ List.replicate (k - ring.length) 0).flatMap
          (fun s => [s, s]), ring.drop k))
    ∧ (fillFromConsumer ring (2 * k + 1)
      = ((ring.take k ++ List.replicate (k - ring.length) 0).flatMap
            (fun s => [s, s]) ++ [(ring.drop k).headD 0],
         ring.drop (k + 1))) :=
  ⟨fillFromConsumer_even k ring, fillFromConsumer_odd k ring⟩

/-- C10: deserializing the empty byte sequence yields
`DataLengthMismatch` with expected length 1 and current length 0 (not
`IncorrectAudioMessageType`): the length check precedes any inspection of
the type tag. -/
theorem deserialize_empty_is_length_mismatch :
    AudioMessage.deserialize [] = .error (.DataLengthMismatch 1 0) := rfl

end SonosChallenge
